import Mathlib

/-!
Verification of the wpok-client-lib submission/completion core.

Each definition below is a shallow embedding of a function of the
repository (file and function named in its doc comment).  Strings are
modelled as Lean `String`; machine integers as `Int`/`Nat`; the Redis
store, the AMQP queue and the S3 object store as explicit state values
or oracles passed to the embedded functions; promise-returning code as
functions of the outcomes of their suspension points.
-/

namespace Wpok

/-! ## JS numeric parsing (Number.parseInt(s, 10) followed by Number.isFinite) -/

/-- Value of a digit list read in base 10. -/
def digitsVal (l : List Char) : Nat :=
  l.foldl (fun acc c => acc * 10 + (c.toNat - '0'.toNat)) 0

/-- Model of `Number.parseInt(String(v), 10)` restricted to base 10:
leading spaces are skipped, an optional sign is read, then the longest
run of decimal digits; `none` models `NaN` (no digit found), which the
library always filters out with `Number.isFinite`. -/
def parseIntJS (s : String) : Option Int :=
  let t := s.data.dropWhile (fun c => c = ' ')
  let core : List Char → Option Int := fun l =>
    let ds := l.takeWhile Char.isDigit
    if ds = [] then none else some (Int.ofNat (digitsVal ds))
  match t with
  | '-' :: rest => (core rest).map (fun n => -n)
  | '+' :: rest => core rest
  | l => core l

/-- `src/watch/wait.js` lines 18-23: `peekExitCode` maps a `null` store
reply to `null` and otherwise parses the reply, keeping only finite
numbers. -/
def parseCode (v : Option String) : Option Int :=
  match v with
  | none => none
  | some s => parseIntJS s

/-! ## Identifier minting (`src/utils/ids.js` and the second ids module) -/

/-- ids module co-defining `extractWorkId` (the variant documented in the
repository README): `generateWorkId(provided)` returns `provided` when it
is a non-empty string, else `"<millis>-<6 hex>"`.  `ts` and `rnd` stand for
`Date.now()` and the random hex draw. -/
def generateWorkId (provided : Option String) (ts rnd : String) : String :=
  match provided with
  | some p => if p = "" then ts ++ "-" ++ rnd else p
  | none => ts ++ "-" ++ rnd

/-- `src/utils/ids.js` lines 5-10: same as `generateWorkId` but the minted
fallback is `"batch-<millis>-<6 hex>"`. -/
def generateWorkIdUtils (provided : Option String) (ts rnd : String) : String :=
  match provided with
  | some p => if p = "" then "batch-" ++ ts ++ "-" ++ rnd else p
  | none => "batch-" ++ ts ++ "-" ++ rnd

/-- ids module co-defining `extractWorkId`:
`generateTaskId(workId)` returns `"wf:" + workId + ":task:" + ts + "-" + rnd`. -/
def generateTaskId (workId ts rnd : String) : String :=
  "wf:" ++ workId ++ ":task:" ++ ts ++ "-" ++ rnd

/-- `src/utils/ids.js` lines 12-16: `generateTaskId(workId)` returns
`"work:" + workId + ":task:" + ts + "-" + rnd` (note the `work:` head,
not `wf:`). -/
def generateTaskIdUtils (workId ts rnd : String) : String :=
  "work:" ++ workId ++ ":task:" ++ ts ++ "-" ++ rnd

/-- The literal `:task:` as a character list. -/
def taskLit : List Char := [':', 't', 'a', 's', 'k', ':']

/-- Core of the regex `^wf:([^:]+):task:` on a character list: after the
literal `wf:`, a non-empty colon-free group, then the literal `:task:`. -/
def extractWorkIdL (s : List Char) : Option (List Char) :=
  match s with
  | 'w' :: 'f' :: ':' :: t =>
    let g := t.takeWhile (fun c => c ≠ ':')
    let r := t.dropWhile (fun c => c ≠ ':')
    if g = [] then none
    else if taskLit.isPrefixOf r then some g else none
  | _ => none

/-- `extractWorkId(taskId)` matches `^wf:([^:]+):task:` against the task
id and returns group 1, or `null` when there is no match. -/
def extractWorkId (s : String) : Option String :=
  (extractWorkIdL s.data).map (fun l => String.mk l)

lemma takeWhile_append_colon (l r : List Char) (h : ∀ c ∈ l, c ≠ ':') :
    (l ++ ':' :: r).takeWhile (fun c => c ≠ ':') = l := by
  induction l with
  | nil => simp [List.takeWhile]
  | cons a as ih =>
    have ha : a ≠ ':' := h a (by simp)
    simp only [List.cons_append, List.takeWhile_cons]
    rw [if_pos (by simpa using ha)]
    rw [ih (fun c hc => h c (by simp [hc]))]

lemma dropWhile_append_colon (l r : List Char) (h : ∀ c ∈ l, c ≠ ':') :
    (l ++ ':' :: r).dropWhile (fun c => c ≠ ':') = ':' :: r := by
  induction l with
  | nil => simp [List.dropWhile]
  | cons a as ih =>
    have ha : a ≠ ':' := h a (by simp)
    simp only [List.cons_append, List.dropWhile_cons]
    rw [if_pos (by simpa using ha)]
    exact ih (fun c hc => h c (by simp [hc]))

lemma data_append (s t : String) : (s ++ t).data = s.data ++ t.data := rfl

/-- The word-for-word round trip on character lists. -/
lemma extract_generate_data (w ts rnd : String)
    (h1 : w.data ≠ []) (h2 : ∀ c ∈ w.data, c ≠ ':') :
    extractWorkIdL (generateTaskId w ts rnd).data = some w.data := by
  have hdata : (generateTaskId w ts rnd).data
      = 'w' :: 'f' :: ':' :: (w.data ++ ':' :: ("task:" ++ ts ++ "-" ++ rnd).data) := by
    simp [generateTaskId, data_append]
  rw [hdata]
  simp only [extractWorkIdL]
  rw [takeWhile_append_colon _ _ h2, dropWhile_append_colon _ _ h2]
  rw [if_neg h1]
  have hX : ("task:" ++ ts ++ "-" ++ rnd).data
      = 't' :: 'a' :: 's' :: 'k' :: ':' :: (ts.data ++ '-' :: rnd.data) := by
    simp [data_append]
  have hpre : ∀ l : List Char,
      taskLit.isPrefixOf (':' :: 't' :: 'a' :: 's' :: 'k' :: ':' :: l) = true := by
    intro l; simp [taskLit, List.isPrefixOf]
  rw [hX, if_pos (hpre _)]

lemma data_ne_nil (w : String) (h : w ≠ "") : w.data ≠ [] := by
  intro hd
  apply h
  cases w with
  | mk d =>
    simp only [] at hd
    subst hd
    rfl

/-- The `work:`-headed task ids of `src/utils/ids.js` never match the
`^wf:` regex, whatever the work id and the random draw. -/
lemma extract_utils_data (w ts rnd : String) :
    extractWorkId (generateTaskIdUtils w ts rnd) = none := by
  have hdata : (generateTaskIdUtils w ts rnd).data
      = 'w' :: 'o' :: 'r' :: 'k' :: ':'
        :: (w.data ++ (":task:" ++ ts ++ "-" ++ rnd).data) := by
    simp [generateTaskIdUtils, data_append]
  unfold extractWorkId
  rw [hdata]
  rfl

/-! ## Object-store lister (`src/storage/s3.js`)

The S3 listing API is modelled by the sequence of pages the store would
serve for a request: `ObjPage` carries the `Contents` keys and the
optional `CommonPrefixes` of one page, and a listing is the `List` of
its pages in continuation order (`IsTruncated` holds exactly when a
further page follows).  The `minimatch` glob engine is an external
dependency and is abstracted as a Boolean matcher `mat key glob`. -/

/-- One page of a `ListObjectsV2` response: the object keys of
`Contents` and, when present, the `CommonPrefixes` values. -/
structure ObjPage where
  keys : List String
  commonPfxs : Option (List String)
deriving DecidableEq

/-- An item yielded by the `listObjects` generator: either an object
`{bucket, key}` (sizes and etags are dropped — nothing in scope reads
them) or a `{commonPrefixes}` marker. -/
inductive S3Item where
  | obj (bucket key : String)
  | marker (pfxs : List String)
deriving DecidableEq

/-- `src/storage/s3.js` lines 54-61: a key passes when it matches at
least one include glob (if any is given) and no exclude glob. -/
def filterKeyOk (mat : String → String → Bool) (incl excl : List String) (k : String) : Bool :=
  (incl.isEmpty || incl.any (fun g => mat k g)) && !(excl.any (fun g => mat k g))

/-- `src/storage/s3.js` line 65: `maxFiles && yielded >= maxFiles` — a
`0`/`null`/`undefined` cap is falsy and never fires. -/
def capHit (maxFiles : Option Int) (yielded : Nat) : Bool :=
  match maxFiles with
  | none => false
  | some m => !(m == 0) && (m ≤ (yielded : Int))

/-- The inner `for (const obj of resp.Contents)` loop of `listObjects`:
returns the items yielded from this page, the updated yield counter and
whether the generator returned early (cap reached). -/
def emitKeys (bucket : String) (mat : String → String → Bool) (incl excl : List String)
    (maxFiles : Option Int) : List String → Nat → List S3Item × Nat × Bool
  | [], y => ([], y, false)
  | k :: ks, y =>
    if k = "" then emitKeys bucket mat incl excl maxFiles ks y
    else if filterKeyOk mat incl excl k then
      if capHit maxFiles (y + 1) then ([S3Item.obj bucket k], y + 1, true)
      else
        let r := emitKeys bucket mat incl excl maxFiles ks (y + 1)
        (S3Item.obj bucket k :: r.1, r.2.1, r.2.2)
    else emitKeys bucket mat incl excl maxFiles ks y

/-- `src/storage/s3.js` lines 41-74: the page loop of the `listObjects`
generator (the continuation token is threaded correctly there, so the
successive pages are simply consumed in order).  In non-recursive mode
each page additionally yields one `commonPrefixes` marker when the
response carries `CommonPrefixes`. -/
def listObjectsGo (bucket : String) (mat : String → String → Bool) (incl excl : List String)
    (recursive : Bool) (maxFiles : Option Int) : List ObjPage → Nat → List S3Item
  | [], _ => []
  | pg :: rest, y =>
    let r := emitKeys bucket mat incl excl maxFiles pg.keys y
    if r.2.2 then r.1
    else
      r.1
        ++ (if recursive then []
            else match pg.commonPfxs with
              | some cps => [S3Item.marker (cps.filter (fun p => !(p = "")))]
              | none => [])
        ++ listObjectsGo bucket mat incl excl recursive maxFiles rest r.2.1

/-- `listObjects` of `src/storage/s3.js` as a function of the pages the
store serves. -/
def listObjects (bucket : String) (mat : String → String → Bool) (incl excl : List String)
    (recursive : Bool) (maxFiles : Option Int) (pages : List ObjPage) : List S3Item :=
  listObjectsGo bucket mat incl excl recursive maxFiles pages 0

/-- The object keys among the yielded items (markers dropped). -/
def objKeys (items : List S3Item) : List String :=
  items.filterMap (fun it => match it with | S3Item.obj _ k => some k | S3Item.marker _ => none)

/-- All keys of all pages that pass the `!key` guard and the
include/exclude filters, in listing order. -/
def allFiltered (mat : String → String → Bool) (incl excl : List String)
    (pages : List ObjPage) : List String :=
  (pages.map (fun pg => pg.keys.filter
    (fun k => !(k = "") && filterKeyOk mat incl excl k))).flatten

/-! ### `listPrefixesAtDepth` (`src/storage/s3.js` lines 81-106)

For this function only the `CommonPrefixes` of the responses matter, so
the store is modelled as `store : String → List (List String)` — the
successive pages of child prefixes served for a `Delimiter:'/'` listing
of a given prefix, where a page is truncated exactly when further pages
follow.  The code builds each request WITHOUT the continuation token it
just read (lines 92-96), so every round of its inner `do/while` loop
receives page 0 again; the loop is therefore modelled with explicit
fuel, `none` meaning it never terminates. -/

def codeFetchKids (pages : List (List String)) : List String → Nat → Option (List String)
  | _, 0 => none
  | acc, fuel + 1 =>
    match pages with
    | [] => some acc
    | p0 :: rest =>
      let acc2 := if p0 = [] then acc else acc ++ p0
      if rest = [] then some acc2
      else codeFetchKids pages acc2 fuel

/-- The `for (const pref of levelPrefixes)` loop: children of every
prefix of the current level, concatenated. -/
def codeLevel (store : String → List (List String)) (fuel : Nat) :
    List String → Option (List String)
  | [] => some []
  | p :: more =>
    match codeFetchKids (store p) [] fuel with
    | none => none
    | some kids => (codeLevel store fuel more).map (fun tail => kids ++ tail)

/-- The depth loop: `levelPrefixes = next.length ? next : levelPrefixes`. -/
def codeDepthGo (store : String → List (List String)) (fuel : Nat) :
    Nat → List String → Option (List String)
  | 0, level => some level
  | d + 1, level =>
    match codeLevel store fuel level with
    | none => none
    | some next => codeDepthGo store fuel d (if next = [] then level else next)

/-- `listPrefixesAtDepth` as coded: `depth <= 0` short-circuits to the
base prefix; otherwise `depth` rounds of child expansion, each round
issuing requests without the continuation token. -/
def codeListPfxsAtDepth (store : String → List (List String)) (basePfx : String)
    (depth : Int) (fuel : Nat) : Option (List String) :=
  if depth ≤ 0 then some [basePfx] else codeDepthGo store fuel depth.toNat [basePfx]

/-- Modelled from the spec (§4.2 "List prefixes at depth" and design
note 4, for comparison with the code): breadth-first expansion that
collects the children from EVERY page of each listing, retaining the
previous level when a level yields no children. -/
def specListPfxsAtDepth (store : String → List (List String)) (basePfx : String)
    (depth : Int) : List String :=
  if depth ≤ 0 then [basePfx] else go depth.toNat [basePfx]
where
  go : Nat → List String → List String
    | 0, level => level
    | d + 1, level =>
      let next := (level.map (fun p => (store p).flatten)).flatten
      go d (if next = [] then level else next)

/-! ## Argument templater (`expandInputPlaceholders`) -/

/-- A JS argument: a string or a non-string value (which the templater
passes through unchanged). -/
inductive JSArg where
  | str (s : String)
  | other
deriving DecidableEq

/-- The regex `^\x7bin(\d+)\x7d$`: parses `{inN}` and returns `N`. -/
def parseInIdx (s : String) : Option Nat :=
  match s.data with
  | '\x7b' :: 'i' :: 'n' :: rest =>
    let ds := rest.takeWhile Char.isDigit
    if ds = [] then none
    else if rest = ds ++ ['\x7d'] then some (digitsVal ds) else none
  | _ => none

/-- `expandInputPlaceholders(args, basenames)` of the templating module:
`{in}` is replaced only when exactly one basename exists; `{inN}` is
replaced when `N` is in range; everything else is left as is. -/
def expandInputPlaceholders (args : List JSArg) (basenames : List String) : List JSArg :=
  let one : Option String := if basenames.length = 1 then basenames.head? else none
  args.map fun a =>
    match a with
    | JSArg.other => JSArg.other
    | JSArg.str s =>
      if s = "\x7bin\x7d" then
        match one with
        | some b => JSArg.str b
        | none => JSArg.str s
      else
        match parseInIdx s with
        | some idx =>
          if idx < basenames.length then JSArg.str ((basenames.get? idx).getD s)
          else JSArg.str s
        | none => JSArg.str s

/-! ## Batch planner (`planBatch` / `packToPlan` of the batching module) -/

/-- `path.basename(key)` restricted to the planner's use: the component
after the last `/` (object keys in batch mode do not end in `/`). -/
def basenameJS (key : String) : String :=
  String.mk ((key.data.reverse.takeWhile (fun c => c ≠ '/')).reverse)

/-- One element of the planner's `pack` accumulator:
`{ remote: {bucket, key}, basename }`. -/
structure PackEntry where
  bucket : String
  key : String
  basename : String
deriving DecidableEq

/-- The `source` field of a plan item. -/
inductive PlanSource where
  | single
  | pfx (p : String)
  | keys (ks : List String)
deriving DecidableEq

/-- A plan item as assembled by `packToPlan` (object grouping);
`inputs` are the `{bucket, key}` pairs of the pack. -/
structure ObjPlanItem where
  inputs : List (String × String)
  localInputs : List String
  args : List JSArg
  source : PlanSource
  incl : List String
  excl : List String
deriving DecidableEq

/-- `packToPlan(pack, spec, base)` of the batching module. -/
def packToPlan (pack : List PackEntry) (specArgs : List JSArg)
    (incl excl : List String) : ObjPlanItem :=
  { inputs := pack.map (fun p => (p.bucket, p.key))
    localInputs := pack.map (fun p => p.basename)
    args := expandInputPlaceholders specArgs (pack.map (fun p => p.basename))
    source := PlanSource.keys (pack.map (fun p => p.key))
    incl := incl
    excl := excl }

/-- The `for await (const item of gen)` loop of `planBatch` in object
grouping: `commonPrefixes` markers are skipped, objects accumulate into
`pack`, a plan item is emitted when the pack reaches `maxPerTask`, and
the trailing partial pack is emitted at the end. -/
def planObjectGo (k : Nat) (specArgs : List JSArg) (incl excl : List String)
    (pack : List PackEntry) : List S3Item → List ObjPlanItem
  | [] => if pack = [] then [] else [packToPlan pack specArgs incl excl]
  | S3Item.marker _ :: rest => planObjectGo k specArgs incl excl pack rest
  | S3Item.obj b key :: rest =>
    let pack2 := pack ++ [⟨b, key, basenameJS key⟩]
    if k ≤ pack2.length then
      packToPlan pack2 specArgs incl excl :: planObjectGo k specArgs incl excl [] rest
    else planObjectGo k specArgs incl excl pack2 rest

/-- `planBatch` line 20: `Number.isFinite(maxPerTask) && maxPerTask > 0
? maxPerTask : 1`. -/
def normMaxPerTask (m : Option Int) : Nat :=
  match m with
  | some v => if 0 < v then v.toNat else 1
  | none => 1

/-- Object-grouping branch of `planBatch`, fed with the items the
lister yields. -/
def planObject (maxPerTask : Option Int) (specArgs : List JSArg)
    (incl excl : List String) (items : List S3Item) : List ObjPlanItem :=
  planObjectGo (normMaxPerTask maxPerTask) specArgs incl excl [] items

/-- Reference chunking: split a list into consecutive chunks of `k`
(the last chunk possibly shorter).  For `1 ≤ k` this is the usual
`⌈n/k⌉`-chunk decomposition. -/
def chunksK (k : Nat) (l : List α) : List (List α) :=
  match l with
  | [] => []
  | a :: l2 => (a :: l2.take (k - 1)) :: chunksK k (l2.drop (k - 1))
termination_by l.length
decreasing_by simp [List.length_drop]; omega

theorem chunksK_cons_of_full (k : Nat) (hk : 1 ≤ k) (c l : List α)
    (hc : c.length = k) : chunksK k (c ++ l) = c :: chunksK k l := by
  match c with
  | [] => simp at hc; omega
  | a :: rest =>
    show chunksK k (a :: (rest ++ l)) = (a :: rest) :: chunksK k l
    rw [chunksK]
    have hr : rest.length = k - 1 := by simp at hc; omega
    rw [← hr]
    rw [List.take_left, List.drop_left]

theorem chunksK_short (k : Nat) (l : List α) (hne : l ≠ []) (hl : l.length ≤ k) :
    chunksK k l = [l] := by
  match l with
  | [] => exact absurd rfl hne
  | a :: l2 =>
    rw [chunksK]
    have h2 : l2.length ≤ k - 1 := by simp at hl; omega
    rw [List.take_of_length_le h2, List.drop_eq_nil_of_le h2]
    rw [chunksK]

theorem chunksK_flatten (k : Nat) (hk : 1 ≤ k) (l : List α) :
    (chunksK k l).flatten = l := by
  match l with
  | [] => rw [chunksK]; rfl
  | a :: l2 =>
    rw [chunksK]
    have := chunksK_flatten k hk (l2.drop (k - 1))
    simp [this]
termination_by l.length
decreasing_by simp [List.length_drop]; omega

theorem chunksK_length (k : Nat) (hk : 1 ≤ k) (l : List α) :
    (chunksK k l).length = (l.length + k - 1) / k := by
  match l with
  | [] =>
    rw [chunksK]
    simp only [List.length_nil, Nat.zero_add]
    rw [Nat.div_eq_of_lt (by omega)]
  | a :: l2 =>
    rw [chunksK]
    show (chunksK k (l2.drop (k - 1))).length + 1 = (l2.length + 1 + k - 1) / k
    rw [chunksK_length k hk (l2.drop (k - 1))]
    rw [List.length_drop]
    rcases le_or_lt l2.length (k - 1) with hle | hgt
    · rw [Nat.sub_eq_zero_of_le hle]
      rw [Nat.div_eq_of_lt (by omega)]
      have : l2.length + 1 + k - 1 = l2.length + k := by omega
      rw [this, Nat.add_div_right _ (by omega)]
      rw [Nat.div_eq_of_lt (by omega)]
    · have h1 : l2.length - (k - 1) + k - 1 = l2.length := by omega
      have h2 : l2.length + 1 + k - 1 = l2.length + k := by omega
      rw [h1, h2, Nat.add_div_right _ (by omega)]
termination_by l.length
decreasing_by simp [List.length_drop]; omega

theorem chunksK_sizes (k : Nat) (hk : 1 ≤ k) (l : List α) :
    (∀ c ∈ (chunksK k l).dropLast, c.length = k)
    ∧ (∀ c, (chunksK k l).getLast? = some c →
        c.length = if k ∣ l.length then k else l.length % k) := by
  match l with
  | [] => exact ⟨by simp [chunksK], by simp [chunksK]⟩
  | a :: l2 =>
    rcases le_or_lt (l2.length + 1) k with hle | hgt
    · rw [chunksK_short k (a :: l2) (by simp) (by simpa using hle)]
      constructor
      · simp
      · intro c hc
        simp at hc
        subst hc
        simp only [List.length_cons]
        rcases Nat.lt_or_ge (l2.length + 1) k with hlt | hge
        · have hnd : ¬ k ∣ l2.length + 1 := by
            intro hdvd
            have := Nat.le_of_dvd (by omega) hdvd
            omega
          rw [if_neg hnd, Nat.mod_eq_of_lt hlt]
        · have hkeq : l2.length + 1 = k := by omega
          rw [hkeq]
          simp
    · have hfull : (a :: l2.take (k - 1)).length = k := by
        simp [List.length_take]
        omega
      have hsplit : a :: l2 = (a :: l2.take (k - 1)) ++ l2.drop (k - 1) := by
        simp [List.take_append_drop]
      rw [hsplit, chunksK_cons_of_full k hk _ _ hfull]
      have hrest := chunksK_sizes k hk (l2.drop (k - 1))
      have hrne : l2.drop (k - 1) ≠ [] := by
        intro h
        have := congrArg List.length h
        simp [List.length_drop] at this
        omega
      have hcne : chunksK k (l2.drop (k - 1)) ≠ [] := by
        intro h
        have := chunksK_flatten k hk (l2.drop (k - 1))
        rw [h] at this
        exact hrne this.symm
      constructor
      · intro c hc
        rw [List.dropLast_cons_of_ne_nil hcne] at hc
        rcases List.mem_cons.mp hc with h | h
        · rw [h]; exact hfull
        · exact hrest.1 c h
      · intro c hc
        have hsing : (a :: l2.take (k - 1)) :: chunksK k (l2.drop (k - 1))
            = [a :: l2.take (k - 1)] ++ chunksK k (l2.drop (k - 1)) := rfl
        rw [hsing, List.getLast?_append_of_ne_nil _ hcne] at hc
        have := hrest.2 c hc
        rw [this]
        have hlen : (a :: l2.take (k - 1) ++ l2.drop (k - 1)).length
            = (l2.drop (k - 1)).length + k := by
          simp [List.length_append, List.length_take, List.length_drop]
          omega
        rw [hlen]
        have hdvd : k ∣ (l2.drop (k - 1)).length + k ↔ k ∣ (l2.drop (k - 1)).length := by
          constructor
          · intro h
            have h2 := Nat.dvd_sub' h (dvd_refl k)
            simpa using h2
          · intro h
            exact dvd_add h (dvd_refl k)
        rw [Nat.add_mod_right]
        by_cases hd : k ∣ (l2.drop (k - 1)).length
        · rw [if_pos hd, if_pos (hdvd.mpr hd)]
        · rw [if_neg hd, if_neg (fun h => hd (hdvd.mp h))]
termination_by l.length
decreasing_by all_goals (simp [List.length_drop]; omega)

/-- The pack entries the object-grouping loop builds from the lister's
items (markers skipped, `basename` computed per entry). -/
def objEntries (items : List S3Item) : List PackEntry :=
  items.filterMap (fun it =>
    match it with
    | S3Item.obj b k => some ⟨b, k, basenameJS k⟩
    | S3Item.marker _ => none)

lemma objEntries_key_map (items : List S3Item) :
    (objEntries items).map (fun e => e.key) = objKeys items := by
  induction items with
  | nil => rfl
  | cons it rest ih =>
    cases it with
    | obj b k => simp [objEntries, objKeys, List.filterMap_cons] at ih ⊢; exact ih
    | marker ps => simp [objEntries, objKeys, List.filterMap_cons] at ih ⊢; exact ih

lemma objEntries_length (items : List S3Item) :
    (objEntries items).length = (objKeys items).length := by
  have := congrArg List.length (objEntries_key_map items)
  simpa using this

/-- The packing loop emits exactly the `k`-chunks of the object entries,
each assembled by `packToPlan`. -/
lemma planObjectGo_eq_chunks (k : Nat) (hk : 1 ≤ k) (args : List JSArg)
    (incl excl : List String) (items : List S3Item) (pack : List PackEntry)
    (hp : pack.length < k) :
    planObjectGo k args incl excl pack items
      = (chunksK k (pack ++ objEntries items)).map (fun c => packToPlan c args incl excl) := by
  induction items generalizing pack with
  | nil =>
    show (if pack = [] then [] else [packToPlan pack args incl excl]) = _
    by_cases hpe : pack = []
    · subst hpe
      rw [if_pos rfl]
      show ([] : List ObjPlanItem) = (chunksK k ([] ++ objEntries [])).map _
      rw [show ([] ++ objEntries [] : List PackEntry) = [] from rfl, chunksK]
      rfl
    · rw [if_neg hpe]
      have h0 : pack ++ objEntries [] = pack := by simp [objEntries]
      rw [h0, chunksK_short k pack hpe (by omega)]
      rfl
  | cons it rest ih =>
    cases it with
    | marker ps =>
      show planObjectGo k args incl excl pack rest = _
      rw [ih pack hp]
      rfl
    | obj b key =>
      have hobj : objEntries (S3Item.obj b key :: rest)
          = (⟨b, key, basenameJS key⟩ : PackEntry) :: objEntries rest := by
        simp [objEntries, List.filterMap_cons]
      rw [hobj]
      have hunf : planObjectGo k args incl excl pack (S3Item.obj b key :: rest)
          = if k ≤ (pack ++ [(⟨b, key, basenameJS key⟩ : PackEntry)]).length then
              packToPlan (pack ++ [(⟨b, key, basenameJS key⟩ : PackEntry)]) args incl excl
                :: planObjectGo k args incl excl [] rest
            else planObjectGo k args incl excl
                (pack ++ [(⟨b, key, basenameJS key⟩ : PackEntry)]) rest := rfl
      rw [hunf]
      have hassoc : pack ++ (⟨b, key, basenameJS key⟩ : PackEntry) :: objEntries rest
          = (pack ++ [(⟨b, key, basenameJS key⟩ : PackEntry)]) ++ objEntries rest := by
        simp
      by_cases hfull : k ≤ (pack ++ [(⟨b, key, basenameJS key⟩ : PackEntry)]).length
      · have hlen : (pack ++ [(⟨b, key, basenameJS key⟩ : PackEntry)]).length = k := by
          simp at hfull ⊢
          omega
        rw [if_pos hfull, hassoc, chunksK_cons_of_full k hk _ _ hlen]
        rw [ih [] (by simp only [List.length_nil]; omega)]
        rfl
      · rw [if_neg hfull, hassoc, ih _ (by simp at hfull ⊢; omega)]

/-! ### Cap semantics of `listObjects` -/

/-- The keys of one page that survive the `!key` guard and the filters. -/
def pageFiltered (mat : String → String → Bool) (incl excl : List String)
    (pg : ObjPage) : List String :=
  pg.keys.filter (fun k => !(k = "") && filterKeyOk mat incl excl k)

lemma capHit_none (y : Nat) : capHit none y = false := rfl

lemma capHit_zero (y : Nat) : capHit (some 0) y = false := rfl

lemma capHit_some (M y : Nat) (hM : 1 ≤ M) :
    capHit (some (M : Int)) y = decide (M ≤ y) := by
  simp only [capHit]
  rw [show (((M : Int)) == 0) = false from by simp ; omega]
  rw [Bool.not_false, Bool.true_and]
  rw [decide_eq_decide.mpr (show ((M : Int) ≤ (y : Int)) ↔ (M ≤ y) from by omega)]

lemma emitKeys_nocap (bucket : String) (mat : String → String → Bool)
    (incl excl : List String) (maxFiles : Option Int)
    (hcap : ∀ y, capHit maxFiles y = false) (ks : List String) (y : Nat) :
    emitKeys bucket mat incl excl maxFiles ks y
      = ((ks.filter (fun k => !(k = "") && filterKeyOk mat incl excl k)).map
          (S3Item.obj bucket),
         y + (ks.filter (fun k => !(k = "") && filterKeyOk mat incl excl k)).length,
         false) := by
  induction ks generalizing y with
  | nil => simp [emitKeys]
  | cons k ks ih =>
    by_cases hk : k = ""
    · subst hk
      rw [show emitKeys bucket mat incl excl maxFiles ("" :: ks) y
            = emitKeys bucket mat incl excl maxFiles ks y from by rw [emitKeys]; simp]
      rw [ih y]
      simp [List.filter_cons]
    · by_cases hf : filterKeyOk mat incl excl k = true
      · rw [show emitKeys bucket mat incl excl maxFiles (k :: ks) y
              = (let r := emitKeys bucket mat incl excl maxFiles ks (y + 1)
                 (S3Item.obj bucket k :: r.1, r.2.1, r.2.2)) from by
            rw [emitKeys]
            rw [if_neg hk, if_pos hf, hcap (y + 1)]
            simp]
        rw [ih (y + 1)]
        simp [List.filter_cons, hk, hf]
        omega
      · rw [show emitKeys bucket mat incl excl maxFiles (k :: ks) y
              = emitKeys bucket mat incl excl maxFiles ks y from by
            rw [emitKeys]
            rw [if_neg hk, if_neg hf]]
        rw [ih y]
        simp [List.filter_cons, hk, hf]

lemma emitKeys_cap (bucket : String) (mat : String → String → Bool)
    (incl excl : List String) (M : Nat) (hM : 1 ≤ M) (ks : List String) (y : Nat)
    (hy : y < M) :
    emitKeys bucket mat incl excl (some (M : Int)) ks y
      = (((ks.filter (fun k => !(k = "") && filterKeyOk mat incl excl k)).take (M - y)).map
          (S3Item.obj bucket),
         y + min (M - y) (ks.filter (fun k => !(k = "") && filterKeyOk mat incl excl k)).length,
         decide (M ≤ y + (ks.filter (fun k => !(k = "") && filterKeyOk mat incl excl k)).length)) := by
  induction ks generalizing y with
  | nil =>
    simp only [emitKeys, List.filter_nil, List.take_nil, List.map_nil, List.length_nil,
      Nat.min_zero, Nat.add_zero]
    rw [decide_eq_false (by omega)]
  | cons k ks ih =>
    by_cases hk : k = ""
    · subst hk
      rw [show emitKeys bucket mat incl excl (some (M : Int)) ("" :: ks) y
            = emitKeys bucket mat incl excl (some (M : Int)) ks y from by
          rw [emitKeys]; simp]
      rw [ih y hy]
      simp [List.filter_cons]
    · by_cases hf : filterKeyOk mat incl excl k = true
      · have hfc : (k :: ks).filter (fun k => !(k = "") && filterKeyOk mat incl excl k)
            = k :: ks.filter (fun k => !(k = "") && filterKeyOk mat incl excl k) := by
          simp [List.filter_cons, hk, hf]
        by_cases hlast : M ≤ y + 1
        · rw [show emitKeys bucket mat incl excl (some (M : Int)) (k :: ks) y
                = ([S3Item.obj bucket k], y + 1, true) from by
              rw [emitKeys]
              rw [if_neg hk, if_pos hf, capHit_some M (y + 1) hM, decide_eq_true hlast]
              simp]
          rw [hfc]
          rw [show M - y = 1 from by omega]
          simp only [List.take_succ_cons, List.take_zero, List.map_cons, List.map_nil,
            List.length_cons, Prod.mk.injEq]
          refine ⟨by trivial, by omega, ?_⟩
          exact (decide_eq_true (by omega)).symm
        · rw [show emitKeys bucket mat incl excl (some (M : Int)) (k :: ks) y
                = (let r := emitKeys bucket mat incl excl (some (M : Int)) ks (y + 1)
                   (S3Item.obj bucket k :: r.1, r.2.1, r.2.2)) from by
              rw [emitKeys]
              rw [if_neg hk, if_pos hf, capHit_some M (y + 1) hM, decide_eq_false hlast]
              simp]
          rw [ih (y + 1) (by omega)]
          rw [hfc]
          rw [show (k :: ks.filter (fun k => !(k = "") && filterKeyOk mat incl excl k)).take (M - y)
                = k :: (ks.filter (fun k => !(k = "") && filterKeyOk mat incl excl k)).take
                    (M - (y + 1)) from by
            rw [show M - y = (M - (y + 1)) + 1 from by omega]
            rfl]
          simp only [List.map_cons, List.length_cons, Prod.mk.injEq]
          refine ⟨by trivial, by omega, ?_⟩
          exact decide_eq_decide.mpr (by omega)
      · rw [show emitKeys bucket mat incl excl (some (M : Int)) (k :: ks) y
              = emitKeys bucket mat incl excl (some (M : Int)) ks y from by
            rw [emitKeys]
            rw [if_neg hk, if_neg hf]]
        rw [ih y hy]
        simp [List.filter_cons, hk, hf]

lemma objKeys_append (A B : List S3Item) : objKeys (A ++ B) = objKeys A ++ objKeys B := by
  simp [objKeys, List.filterMap_append]

lemma objKeys_map_obj (bucket : String) (F : List String) :
    objKeys (F.map (S3Item.obj bucket)) = F := by
  induction F with
  | nil => rfl
  | cons k ks ih => simp [objKeys, List.filterMap_cons] at ih ⊢; exact ih

lemma objKeys_marker_block (recursive : Bool) (pg : ObjPage) :
    objKeys (if recursive then []
             else match pg.commonPfxs with
               | some cps => [S3Item.marker (cps.filter (fun p => !(p = "")))]
               | none => []) = [] := by
  cases recursive with
  | true => rfl
  | false => cases pg.commonPfxs <;> simp [objKeys]

lemma allFiltered_cons (mat : String → String → Bool) (incl excl : List String)
    (pg : ObjPage) (rest : List ObjPage) :
    allFiltered mat incl excl (pg :: rest)
      = pg.keys.filter (fun k => !(k = "") && filterKeyOk mat incl excl k)
        ++ allFiltered mat incl excl rest := by
  simp [allFiltered]

/-- Without an active cap, `listObjects` yields every filtered key of
every page. -/
lemma listGo_nocap (bucket : String) (mat : String → String → Bool)
    (incl excl : List String) (recursive : Bool) (maxFiles : Option Int)
    (hcap : ∀ y, capHit maxFiles y = false) (pages : List ObjPage) (y : Nat) :
    objKeys (listObjectsGo bucket mat incl excl recursive maxFiles pages y)
      = allFiltered mat incl excl pages := by
  induction pages generalizing y with
  | nil => rfl
  | cons pg rest ih =>
    have hunf : listObjectsGo bucket mat incl excl recursive maxFiles (pg :: rest) y
        = (let r := emitKeys bucket mat incl excl maxFiles pg.keys y
           if r.2.2 then r.1
           else
             r.1
               ++ (if recursive then []
                   else match pg.commonPfxs with
                     | some cps => [S3Item.marker (cps.filter (fun p => !(p = "")))]
                     | none => [])
               ++ listObjectsGo bucket mat incl excl recursive maxFiles rest r.2.1) := rfl
    rw [hunf, emitKeys_nocap bucket mat incl excl maxFiles hcap pg.keys y]
    show objKeys (_ ++ _ ++ _) = _
    rw [objKeys_append, objKeys_append, objKeys_map_obj, objKeys_marker_block, ih]
    rw [allFiltered_cons]
    simp

/-- With an active cap `M ≥ 1` and `y` keys already yielded,
`listObjects` yields exactly the next `M - y` filtered keys. -/
lemma listGo_cap (bucket : String) (mat : String → String → Bool)
    (incl excl : List String) (recursive : Bool) (M : Nat) (hM : 1 ≤ M)
    (pages : List ObjPage) (y : Nat) (hy : y < M) :
    objKeys (listObjectsGo bucket mat incl excl recursive (some (M : Int)) pages y)
      = (allFiltered mat incl excl pages).take (M - y) := by
  induction pages generalizing y with
  | nil => simp [listObjectsGo, objKeys, allFiltered]
  | cons pg rest ih =>
    have hemit := emitKeys_cap bucket mat incl excl M hM pg.keys y hy
    have h0 : listObjectsGo bucket mat incl excl recursive (some (M : Int)) (pg :: rest) y
        = (let r := emitKeys bucket mat incl excl (some (M : Int)) pg.keys y
           if r.2.2 then r.1
           else
             r.1
               ++ (if recursive then []
                   else match pg.commonPfxs with
                     | some cps => [S3Item.marker (cps.filter (fun p => !(p = "")))]
                     | none => [])
               ++ listObjectsGo bucket mat incl excl recursive (some (M : Int)) rest r.2.1) := rfl
    by_cases hstop :
        M ≤ y + (pg.keys.filter (fun k => !(k = "") && filterKeyOk mat incl excl k)).length
    · rw [decide_eq_true hstop] at hemit
      have hunf : listObjectsGo bucket mat incl excl recursive (some (M : Int)) (pg :: rest) y
          = ((pg.keys.filter (fun k => !(k = "") && filterKeyOk mat incl excl k)).take
              (M - y)).map (S3Item.obj bucket) := by
        rw [h0, hemit]
        rfl
      rw [hunf, objKeys_map_obj, allFiltered_cons]
      rw [List.take_append_of_le_length (by omega)]
    · rw [decide_eq_false hstop] at hemit
      have hunf : listObjectsGo bucket mat incl excl recursive (some (M : Int)) (pg :: rest) y
          = ((pg.keys.filter (fun k => !(k = "") && filterKeyOk mat incl excl k)).take
              (M - y)).map (S3Item.obj bucket)
            ++ (if recursive then []
                else match pg.commonPfxs with
                  | some cps => [S3Item.marker (cps.filter (fun p => !(p = "")))]
                  | none => [])
            ++ listObjectsGo bucket mat incl excl recursive (some (M : Int)) rest
                (y + min (M - y)
                  (pg.keys.filter (fun k => !(k = "") && filterKeyOk mat incl excl k)).length) := by
        rw [h0, hemit]
        rfl
      rw [hunf, objKeys_append, objKeys_append, objKeys_map_obj, objKeys_marker_block]
      have hmin : y + min (M - y)
            (pg.keys.filter (fun k => !(k = "") && filterKeyOk mat incl excl k)).length
          = y + (pg.keys.filter (fun k => !(k = "") && filterKeyOk mat incl excl k)).length := by
        omega
      rw [hmin,
        ih (y + (pg.keys.filter (fun k => !(k = "") && filterKeyOk mat incl excl k)).length)
          (by omega)]
      rw [List.take_of_length_le (by omega), allFiltered_cons]
      rw [show M - y
            = (pg.keys.filter (fun k => !(k = "") && filterKeyOk mat incl excl k)).length
              + (M - (y + (pg.keys.filter
                  (fun k => !(k = "") && filterKeyOk mat incl excl k)).length)) from by omega]
      rw [List.take_append]
      simp

/-! ## Descriptor builder (`src/submit/buildTaskMsg.js`) and submit engine
(`src/submit/submit.js`)

The Redis store and the AMQP queue are modelled by the ordered list of
operations the engine attempts (`ROp`) together with a small store state
the operations act on.  Random draws and clock reads are passed in as
parameters (`ts`/`rnd` strings). -/

/-- A manifest-level input record (`spec.io.inputs[i]`), carried opaquely
through `createSingle`. -/
structure InputSpec where
  url : Option String
  incl : List String
  excl : List String
  recursive : Option Bool
  maxFiles : Option Int
deriving DecidableEq

/-- An entry of a plan item's `inputs` array: manifest input (single
mode), `{bucket, key}` (object mode) or `{bucket, prefix, ...}` (prefix
mode). -/
inductive InRef where
  | manifest (i : InputSpec)
  | remote (bucket key : String)
  | pfxRef (bucket p : String) (incl excl : List String)
deriving DecidableEq

/-- A plan item as consumed by the submit engine. -/
structure PlanItemU where
  inputs : List InRef
  localInputs : List String
  args : List JSArg
  source : PlanSource
deriving DecidableEq

/-- `spec.io.batch`. -/
structure BatchSpec where
  enabled : Bool
  grouping : Option String
  prefixDepth : Option Int
  maxPerTask : Option Int
deriving DecidableEq

/-- The manifest `spec` subtree, with only the fields the embedded
functions read. -/
structure SpecRec where
  taskType : String
  executable : Option String
  cmd : Option String
  name : Option String
  args : List JSArg
  workDir : Option String
  inputDir : Option String
  outputDir : Option String
  outputs : List String
  ioInputs : List InputSpec
  ioOutput : Option String
  ioBatch : Option BatchSpec
deriving DecidableEq

/-- The persisted task descriptor, as assembled by
`buildTaskMsgFromPlan`. -/
structure TaskMsg where
  executable : Option String
  name : Option String
  args : List JSArg
  workDir : Option String
  inputDir : Option String
  outputDir : Option String
  inputs : List String
  outputs : List String
  taskId : String
  taskType : String
  ioInputs : List InRef
  ioOutput : Option String
  ioBatch : Option BatchSpec
deriving DecidableEq

/-- `buildTaskMsgFromPlan(spec, plan, taskId)` of
`src/submit/buildTaskMsg.js`. -/
def buildTaskMsgFromPlan (spec : SpecRec) (plan : PlanItemU) (taskId : String) : TaskMsg :=
  { executable := spec.executable.orElse (fun _ => spec.cmd)
    name := spec.name
    args := plan.args
    workDir := spec.workDir
    inputDir := spec.inputDir
    outputDir := spec.outputDir
    inputs := plan.localInputs
    outputs := spec.outputs
    taskId := taskId
    taskType := spec.taskType
    ioInputs := plan.inputs
    ioOutput := spec.ioOutput
    ioBatch := spec.ioBatch }

/-- An attempted external operation of the submit engine, in program
order.  A successful queue delivery is `publish`; a `publishBurst` call
that threw is `publishFailed` (the queue did not receive the payload). -/
inductive ROp where
  | checkQueue (q : String)
  | lPush (key : String) (v : TaskMsg)
  | sAdd (key member : String)
  | sRem (key member : String)
  | del (key : String)
  | publish (q payload : String)
  | publishFailed (q payload : String)
deriving DecidableEq

/-- Key-value store state: `lists` for `lPush`-ed descriptors, `sets`
for set membership. -/
structure Store where
  lists : String → List TaskMsg
  sets : String → List String

def emptyStore : Store := ⟨fun _ => [], fun _ => []⟩

/-- Redis semantics of one operation (queue operations leave the store
unchanged). -/
def applyOp (st : Store) (op : ROp) : Store :=
  match op with
  | ROp.checkQueue _ => st
  | ROp.lPush key v =>
    { st with lists := fun k => if k = key then v :: st.lists k else st.lists k }
  | ROp.sAdd key m =>
    { st with sets := fun k =>
        if k = key then (if m ∈ st.sets k then st.sets k else m :: st.sets k) else st.sets k }
  | ROp.sRem key m =>
    { st with sets := fun k =>
        if k = key then (st.sets k).filter (fun x => !(x = m)) else st.sets k }
  | ROp.del key =>
    { lists := fun k => if k = key then [] else st.lists k
      sets := fun k => if k = key then [] else st.sets k }
  | ROp.publish _ _ => st
  | ROp.publishFailed _ _ => st

def applyOps (st : Store) (ops : List ROp) : Store := ops.foldl applyOp st

/-- Number of successful deliveries of `payload` to queue `q`. -/
def publishCount (ops : List ROp) (q payload : String) : Nat :=
  ops.countP (fun op => op == ROp.publish q payload)

/-- `src/submit/submit.js` line 23: `manifest?.metadata?.workId ||
generateWorkId('solo')` (the `utils/ids` module imported there). -/
def resolveSingleWorkId (metaWorkId : Option String) (wts wrnd : String) : String :=
  match metaWorkId with
  | some w => if w = "" then generateWorkIdUtils (some "solo") wts wrnd else w
  | none => generateWorkIdUtils (some "solo") wts wrnd

/-- `createSingle(client, manifest)` of `src/submit/submit.js`: resolve
workId, mint taskId, build the single-mode plan item and descriptor,
passive queue check, `lPush` the descriptor, publish the taskId.
Returns the resolved workId, the taskId and the attempted operations;
`queueOk` is the outcome of `checkQueueOrThrow`. -/
def createSingle (metaWorkId : Option String) (spec : SpecRec) (queueOk : Bool)
    (wts wrnd tts trnd : String) : Except String (String × String × List ROp) :=
  let workId := resolveSingleWorkId metaWorkId wts wrnd
  let taskId := generateTaskIdUtils workId tts trnd
  let planItem : PlanItemU :=
    { inputs := spec.ioInputs.map InRef.manifest
      localInputs := []
      args := spec.args
      source := PlanSource.single }
  let msg := buildTaskMsgFromPlan spec planItem taskId
  if queueOk then
    Except.ok (workId, taskId,
      [ROp.checkQueue spec.taskType,
       ROp.lPush (taskId ++ "_msg") msg,
       ROp.publish spec.taskType taskId])
  else Except.error ("ENOQUEUE:" ++ spec.taskType)

/-- One result entry of `createBatch`. -/
structure BatchRec where
  taskId : String
  source : PlanSource
  hasError : Bool
deriving DecidableEq

/-- The `for await (const planItem of planBatch(spec))` loop of
`createBatch`: per item, `lPush` the descriptor, then `publishBurst`;
on publish failure a best-effort `del` of the descriptor key (wrapped
in try/catch) and an error record; `stopOnError` re-raises after the
rollback.  `pubOk i` tells whether the i-th `publishBurst` succeeds,
`mint i` the i-th `(millis, hex)` draw.  The rate limiter only sleeps
and is invisible to the operation log.  The third component reports
whether the loop re-raised. -/
def createBatchGo (spec : SpecRec) (workId : String) (pubOk : Nat → Bool)
    (stopOnError : Bool) (mint : Nat → String × String) :
    Nat → List PlanItemU → List ROp × List BatchRec × Bool
  | _, [] => ([], [], false)
  | i, plan :: rest =>
    let taskId := generateTaskIdUtils workId (mint i).1 (mint i).2
    let msg := buildTaskMsgFromPlan spec plan taskId
    if pubOk i then
      let r := createBatchGo spec workId pubOk stopOnError mint (i + 1) rest
      (ROp.lPush (taskId ++ "_msg") msg :: ROp.publish spec.taskType taskId :: r.1,
       { taskId := taskId, source := plan.source, hasError := false } :: r.2.1,
       r.2.2)
    else
      if stopOnError then
        ([ROp.lPush (taskId ++ "_msg") msg,
          ROp.publishFailed spec.taskType taskId,
          ROp.del (taskId ++ "_msg")],
         [{ taskId := taskId, source := plan.source, hasError := true }],
         true)
      else
        let r := createBatchGo spec workId pubOk stopOnError mint (i + 1) rest
        (ROp.lPush (taskId ++ "_msg") msg
           :: ROp.publishFailed spec.taskType taskId
           :: ROp.del (taskId ++ "_msg") :: r.1,
         { taskId := taskId, source := plan.source, hasError := true } :: r.2.1,
         r.2.2)

/-- `createBatch(client, manifest, {ratePerSec, stopOnError})` of
`src/submit/submit.js` over an already-expanded plan list. -/
def createBatch (metaWorkId : Option String) (spec : SpecRec)
    (plans : List PlanItemU) (pubOk : Nat → Bool) (stopOnError : Bool)
    (queueOk : Bool) (wts wrnd : String) (mint : Nat → String × String) :
    Except String (String × List ROp × List BatchRec × Bool) :=
  let workId := match metaWorkId with
    | some w => if w = "" then generateWorkIdUtils none wts wrnd else w
    | none => generateWorkIdUtils none wts wrnd
  if queueOk then
    Except.ok (workId,
      [ROp.checkQueue spec.taskType]
        ++ (createBatchGo spec workId pubOk stopOnError mint 0 plans).1,
      (createBatchGo spec workId pubOk stopOnError mint 0 plans).2.1,
      (createBatchGo spec workId pubOk stopOnError mint 0 plans).2.2)
  else Except.error ("ENOQUEUE:" ++ spec.taskType)

/-! ## Completion connector (`RedisConnector`) -/

/-- Connector state: the resolver table (`taskPromiseResolves`, a JS
object whose keys are unique by construction, modelled as an
association list) and the members of the completion set
`wf:<workId>:tasksPendingCompletionHandling`.  The `Nat` value stands
for the caller's resolve callback. -/
structure ConnSt where
  table : List (String × Nat)
  completionSet : List String
deriving DecidableEq

/-- Observable outcome of a `waitForTask` call on the connector:
`installed` — a resolver was installed and the promise is pending;
`resolvedUndefined` — the function returned early, giving a promise
already resolved with `undefined`; `rejected` — a rejected promise
(never produced by the code). -/
inductive WaitCallRes where
  | installed
  | resolvedUndefined
  | rejected
deriving DecidableEq

/-- `RedisConnector.waitForTask(taskId)`: when a resolver for the id is
already present the function logs an error and plain-returns (the async
function yields a promise resolved with `undefined`); otherwise it
installs a resolver. -/
def connWaitForTask (st : ConnSt) (taskId : String) (tok : Nat) : ConnSt × WaitCallRes :=
  if (st.table.lookup taskId).isSome then (st, WaitCallRes.resolvedUndefined)
  else ({ st with table := (taskId, tok) :: st.table }, WaitCallRes.installed)

/-- `RedisConnector.cancelWait(taskId)`: drop the resolver, report
whether one was removed. -/
def connCancelWait (st : ConnSt) (taskId : String) : ConnSt × Bool :=
  if (st.table.lookup taskId).isSome then
    ({ st with table := st.table.filter (fun e => !(e.1 = taskId)) }, true)
  else (st, false)

/-- Outcome of a store round-trip: value or thrown error. -/
inductive SRes (α : Type) where
  | ok (a : α)
  | err
deriving DecidableEq

/-- What one iteration of `RedisConnector.run` did. -/
inductive IterOut where
  | slept
  | readErrorSkipped (tid : String)
  | droppedUnobserved (tid : String)
  | crashed (tid : String)
  | resolvedTask (tid : String) (code : Option String) (tok : Nat)
deriving DecidableEq

/-- One iteration of the `while (this.running)` loop of
`RedisConnector.run`: pick a random completion-set member (an error or
`null` leads to a sleep); read an exit-code member of the `<taskId>`
set (on error: `continue` — nothing is removed, no resolver consumed);
without an observer, remove the id from the completion set (this `sRem`
is not wrapped, so a failure crashes the loop); with an observer,
delete the resolver, best-effort `sRem` (failure logged and swallowed),
and resolve with the `[null, code]` tuple. -/
def runIteration (st : ConnSt) (pick : SRes (Option String))
    (readExit : String → SRes (Option String)) (remFails : String → Bool) :
    ConnSt × IterOut :=
  match pick with
  | SRes.err => (st, IterOut.slept)
  | SRes.ok none => (st, IterOut.slept)
  | SRes.ok (some tid) =>
    match readExit tid with
    | SRes.err => (st, IterOut.readErrorSkipped tid)
    | SRes.ok code =>
      match st.table.lookup tid with
      | none =>
        if remFails tid then (st, IterOut.crashed tid)
        else ({ st with completionSet := st.completionSet.filter (fun m => !(m = tid)) },
              IterOut.droppedUnobserved tid)
      | some tok =>
        ({ table := st.table.filter (fun e => !(e.1 = tid))
           completionSet := if remFails tid then st.completionSet
             else st.completionSet.filter (fun m => !(m = tid)) },
         IterOut.resolvedTask tid code tok)

/-- At most one resolver per task id. -/
def keysNodup (st : ConnSt) : Prop := (st.table.map Prod.fst).Nodup

lemma not_mem_of_lookup_eq_none {l : List (String × Nat)} {a : String}
    (h : l.lookup a = none) : a ∉ l.map Prod.fst := by
  induction l with
  | nil => simp
  | cons e es ih =>
    cases e with
    | mk k v =>
      by_cases hk : a = k
      · subst hk
        simp [List.lookup] at h
      · rw [show (((k, v) :: es).lookup a) = es.lookup a from by
            simp [List.lookup, hk, Ne.symm hk, beq_false_of_ne hk]] at h
        simp [hk, ih h]

lemma nodup_filter_table (l : List (String × Nat)) (p : String × Nat → Bool)
    (h : (l.map Prod.fst).Nodup) : ((l.filter p).map Prod.fst).Nodup :=
  List.Nodup.sublist (List.Sublist.map Prod.fst (List.filter_sublist l)) h

/-! ## Wait engine (`src/watch/wait.js`) -/

/-- Which of the two raced promises settles first: the connector's
resolution (carrying the code slot of the `[null, codeStr]` tuple) or
the timeout timer. -/
inductive RaceOut where
  | resolvedFirst (tuple : Option String)
  | timerFirst
deriving DecidableEq

/-- Result value of `waitForTask`. -/
structure WaitRes where
  state : String
  code : Option Int
deriving DecidableEq

/-- `src/watch/wait.js` lines 43-47: wrap the `[null, codeStr]` tuple
into `{state:'DONE', code}` (a `null` code stays `null`; a non-numeric
string gives `NaN`, both modelled as `none`). -/
def doneFromTuple (t : Option String) : WaitRes :=
  { state := "DONE", code := parseCode t }

/-- `waitForTask(client, taskId, {timeoutSec})` of `src/watch/wait.js`
as a function of its suspension-point outcomes: the initial fast-peek
reply, the race between the waiter promise and the timer, and the
last-chance peek after a timeout.  The result pairs the returned value
with whether a waiter was registered with the connector; `none` means
the call never returns (no timeout was set and the connector never
resolves). -/
def waitForTask (timeoutSec : Option Int) (fastPeek : Option String)
    (race : RaceOut) (latePeek : Option String) : Option (WaitRes × Bool) :=
  let tSec : Int := match timeoutSec with | some t => t | none => 0
  match parseCode fastPeek with
  | some n => some ({ state := "DONE", code := some n }, false)
  | none =>
    if tSec ≤ 0 then
      match race with
      | RaceOut.resolvedFirst t => some (doneFromTuple t, true)
      | RaceOut.timerFirst => none
    else
      match race with
      | RaceOut.resolvedFirst t => some (doneFromTuple t, true)
      | RaceOut.timerFirst =>
        match parseCode latePeek with
        | some n => some ({ state := "DONE", code := some n }, true)
        | none => some ({ state := "TIMEOUT", code := none }, true)

/-! ## Claim theorems -/

lemma string_mk_data (w : String) : String.mk w.data = w := by cases w; rfl

/-- C4: for every valid (non-empty, colon-free) work id `w`, the ids
module that defines `extractWorkId` satisfies
`extractWorkId (generateTaskId w) = w`, the task id having the form
`wf:<w>:task:<millis>-<hex>`; the `generateTaskId` of `src/utils/ids.js`
(the module `submit.js` and `index.js` import) instead mints
`work:<w>:task:...` ids, on which `extractWorkId` returns `null` — the
round trip the claim (and the README) state fails for it. -/
theorem c4_roundtrip_vs_utils_ids :
    (∀ w ts rnd : String, w ≠ "" → (∀ c ∈ w.data, c ≠ ':') →
      extractWorkId (generateTaskId w ts rnd) = some w)
    ∧ (∀ w ts rnd : String, extractWorkId (generateTaskIdUtils w ts rnd) = none) := by
  constructor
  · intro w ts rnd hne hcol
    unfold extractWorkId
    rw [extract_generate_data w ts rnd (data_ne_nil w hne) hcol]
    show some (String.mk w.data) = some w
    rw [string_mk_data]
  · exact extract_utils_data

/-- C4 witness: the round trip at `w = "w1"`, and the failure of the
`src/utils/ids.js` variant at the same input. -/
theorem c4_roundtrip_vs_utils_ids_witness :
    extractWorkId (generateTaskId "w1" "1700" "0a1b2c3d") = some "w1"
    ∧ extractWorkId (generateTaskIdUtils "w1" "1700" "0a1b2c3d") = none :=
  ⟨c4_roundtrip_vs_utils_ids.1 "w1" "1700" "0a1b2c3d" (by decide) (by decide),
   c4_roundtrip_vs_utils_ids.2 "w1" "1700" "0a1b2c3d"⟩

/-- A concrete single-task manifest `spec` (taskType `q1`). -/
def spec1 : SpecRec :=
  { taskType := "q1"
    executable := some "python3"
    cmd := none
    name := some "t"
    args := [JSArg.str "--a"]
    workDir := some "/w"
    inputDir := some "/w"
    outputDir := some "/w"
    outputs := []
    ioInputs := []
    ioOutput := none
    ioBatch := none }

/-- C5 counterexample: a client whose default work id is `"w9"` calls
`createSingle` with no `metadata.workId`; the code resolves the work id
to the constant `"solo"` (from `generateWorkId('solo')`), not to the
client's `"w9"`, and the minted task id embeds `"solo"`. -/
theorem c5_counterexample :
    (createSingle none spec1 true "1700" "ab" "1701" "cd").toOption.map
        (fun r => (r.1, r.2.1))
      = some ("solo", "work:solo:task:1701-cd")
    ∧ ("solo" : String) ≠ "w9" := by
  constructor
  · rfl
  · decide

/-- C5 amended: `createSingle` uses `metadata.workId` when it is a
non-empty string and otherwise the fixed work id `"solo"`; the client's
default work id is never consulted. -/
theorem c5_amended_workid (metaWorkId : Option String) (wts wrnd : String) :
    ((metaWorkId = none ∨ metaWorkId = some "") →
      resolveSingleWorkId metaWorkId wts wrnd = "solo")
    ∧ (∀ w, metaWorkId = some w → w ≠ "" →
      resolveSingleWorkId metaWorkId wts wrnd = w) := by
  constructor
  · rintro (h | h) <;> subst h <;> rfl
  · intro w h hne
    subst h
    simp [resolveSingleWorkId, hne]

/-- C5 witness for the amended statement. -/
theorem c5_amended_workid_witness :
    resolveSingleWorkId none "1700" "ab" = "solo"
    ∧ resolveSingleWorkId (some "w1") "1700" "ab" = "w1" :=
  ⟨(c5_amended_workid none "1700" "ab").1 (Or.inl rfl),
   (c5_amended_workid (some "w1") "1700" "ab").2 "w1" rfl (by decide)⟩

/-- C3 counterexample: with a resolver already installed for `"t1"`, a
second `waitForTask("t1")` returns a promise RESOLVED with `undefined`
(after logging) — not a rejected promise — and leaves the table
unchanged. -/
theorem c3_counterexample :
    (connWaitForTask ⟨[("t1", 0)], []⟩ "t1" 1).2 = WaitCallRes.resolvedUndefined
    ∧ (connWaitForTask ⟨[("t1", 0)], []⟩ "t1" 1).2 ≠ WaitCallRes.rejected
    ∧ (connWaitForTask ⟨[("t1", 0)], []⟩ "t1" 1).1 = ⟨[("t1", 0)], []⟩ := by
  decide

/-- C3 amended: a second `waitForTask` for an observed id returns a
promise resolved with `undefined` (never a rejection) and does not touch
the table, and every connector operation preserves key-uniqueness of
the resolver table (at most one resolver per task id). -/
theorem c3_amended_wait_once :
    (∀ st tid tok, (st.table.lookup tid).isSome →
        connWaitForTask st tid tok = (st, WaitCallRes.resolvedUndefined))
    ∧ (∀ st tid tok, (connWaitForTask st tid tok).2 ≠ WaitCallRes.rejected)
    ∧ (∀ st tid tok, keysNodup st → keysNodup (connWaitForTask st tid tok).1)
    ∧ (∀ st tid, keysNodup st → keysNodup (connCancelWait st tid).1)
    ∧ (∀ st pick readExit remFails, keysNodup st →
        keysNodup (runIteration st pick readExit remFails).1) := by
  refine ⟨?_, ?_, ?_, ?_, ?_⟩
  · intro st tid tok h
    unfold connWaitForTask
    rw [if_pos h]
  · intro st tid tok
    unfold connWaitForTask
    by_cases h : (st.table.lookup tid).isSome
    · rw [if_pos h]; simp
    · rw [if_neg h]; simp
  · intro st tid tok h
    unfold connWaitForTask
    by_cases hl : (st.table.lookup tid).isSome
    · rw [if_pos hl]; exact h
    · rw [if_neg hl]
      have hnm : tid ∉ st.table.map Prod.fst :=
        not_mem_of_lookup_eq_none (Option.not_isSome_iff_eq_none.mp hl)
      exact List.Nodup.cons hnm h
  · intro st tid h
    unfold connCancelWait
    by_cases hl : (st.table.lookup tid).isSome
    · rw [if_pos hl]
      exact nodup_filter_table st.table _ h
    · rw [if_neg hl]; exact h
  · intro st pick readExit remFails h
    unfold runIteration
    split
    · exact h
    · exact h
    · split
      · exact h
      · split
        · split
          · exact h
          · simpa [keysNodup] using h
        · exact nodup_filter_table st.table _ h

/-- C3 witness for the amended statement, at a concrete one-entry
table. -/
theorem c3_amended_wait_once_witness :
    connWaitForTask ⟨[("t1", 0)], ["t2"]⟩ "t1" 5
      = (⟨[("t1", 0)], ["t2"]⟩, WaitCallRes.resolvedUndefined)
    ∧ keysNodup (connWaitForTask ⟨[("t1", 0)], ["t2"]⟩ "t3" 5).1 :=
  ⟨c3_amended_wait_once.1 ⟨[("t1", 0)], ["t2"]⟩ "t1" 5 (by decide),
   c3_amended_wait_once.2.2.1 ⟨[("t1", 0)], ["t2"]⟩ "t3" 5 (by simp [keysNodup])⟩

/-- C9: when the exit-code read (`sRandMember(taskId)`) throws, the run
loop `continue`s without removing the task id from the completion set
and without consuming any resolver: the whole state is unchanged and
the completion stays pending for a later iteration. -/
theorem c9_read_error_keeps_pending (st : ConnSt) (tid : String)
    (readExit : String → SRes (Option String)) (remFails : String → Bool)
    (pick : SRes (Option String)) (hp : pick = SRes.ok (some tid))
    (h : readExit tid = SRes.err) :
    runIteration st pick readExit remFails = (st, IterOut.readErrorSkipped tid)
    ∧ (runIteration st pick readExit remFails).1.completionSet = st.completionSet
    ∧ (runIteration st pick readExit remFails).1.table = st.table := by
  subst hp
  have hr : runIteration st (SRes.ok (some tid)) readExit remFails
      = (st, IterOut.readErrorSkipped tid) := by
    simp [runIteration, h]
  exact ⟨hr, by rw [hr], by rw [hr]⟩

/-- C9 witness at a concrete state and failing read. -/
theorem c9_read_error_keeps_pending_witness :
    runIteration ⟨[("t9", 3)], ["t9"]⟩ (SRes.ok (some "t9"))
        (fun _ => SRes.err) (fun _ => false)
      = (⟨[("t9", 3)], ["t9"]⟩, IterOut.readErrorSkipped "t9") :=
  (c9_read_error_keeps_pending ⟨[("t9", 3)], ["t9"]⟩ "t9"
    (fun _ => SRes.err) (fun _ => false) (SRes.ok (some "t9")) rfl rfl).1

/-- C7: with `timeoutSec > 0`, (a) a parsable exit code already in the
store at call time is returned as `DONE` by the initial fast-peek
without registering a waiter; (b) the call returns `TIMEOUT` only when
the initial peek found no code, the timer won the race AND the
last-chance peek found no code either — so a code written before the
timeout fired (hence visible to the last-chance peek) never yields
`TIMEOUT`; (c) such a late-arriving code is converted into `DONE`; (d)
with a timeout set, the call always returns. -/
theorem c7_wait_no_false_timeout (t : Int) (fastPeek latePeek : Option String)
    (race : RaceOut) (ht : 0 < t) :
    (∀ n, parseCode fastPeek = some n →
        waitForTask (some t) fastPeek race latePeek
          = some ({ state := "DONE", code := some n }, false))
    ∧ (∀ res reg, waitForTask (some t) fastPeek race latePeek = some (res, reg) →
        res.state = "TIMEOUT" →
        parseCode fastPeek = none ∧ race = RaceOut.timerFirst ∧ parseCode latePeek = none)
    ∧ (∀ n, parseCode fastPeek = none → race = RaceOut.timerFirst →
        parseCode latePeek = some n →
        waitForTask (some t) fastPeek race latePeek
          = some ({ state := "DONE", code := some n }, true))
    ∧ (waitForTask (some t) fastPeek race latePeek).isSome := by
  have hts : ¬ (t ≤ 0) := by omega
  refine ⟨?_, ?_, ?_, ?_⟩
  · intro n hn
    simp [waitForTask, hn]
  · intro res reg heq hstate
    cases hf : parseCode fastPeek with
    | some n =>
      have hw : waitForTask (some t) fastPeek race latePeek
          = some ({ state := "DONE", code := some n }, false) := by
        simp [waitForTask, hf]
      rw [hw] at heq
      have hres : res = { state := "DONE", code := some n } := by
        have h2 := congrArg (fun o => (o.getD ({ state := "", code := none }, false)).1) heq
        simp at h2
        exact h2.symm
      rw [hres] at hstate
      simp at hstate
    | none =>
      cases race with
      | resolvedFirst tuple =>
        have hw : waitForTask (some t) fastPeek (RaceOut.resolvedFirst tuple) latePeek
            = some (doneFromTuple tuple, true) := by
          simp [waitForTask, hf, hts]
        rw [hw] at heq
        have hres : res = doneFromTuple tuple := by
          have h2 := congrArg (fun o => (o.getD ({ state := "", code := none }, false)).1) heq
          simp at h2
          exact h2.symm
        rw [hres] at hstate
        simp [doneFromTuple] at hstate
      | timerFirst =>
        cases hl : parseCode latePeek with
        | some n =>
          have hw : waitForTask (some t) fastPeek RaceOut.timerFirst latePeek
              = some ({ state := "DONE", code := some n }, true) := by
            simp [waitForTask, hf, hts, hl]
          rw [hw] at heq
          have hres : res = { state := "DONE", code := some n } := by
            have h2 := congrArg (fun o => (o.getD ({ state := "", code := none }, false)).1) heq
            simp at h2
            exact h2.symm
          rw [hres] at hstate
          simp at hstate
        | none => exact ⟨rfl, rfl, rfl⟩
  · intro n hf hr hl
    subst hr
    simp [waitForTask, hf, hts, hl]
  · cases hf : parseCode fastPeek with
    | some n => simp [waitForTask, hf]
    | none =>
      cases race with
      | resolvedFirst tuple => simp [waitForTask, hf, hts]
      | timerFirst =>
        cases hl : parseCode latePeek with
        | some n => simp [waitForTask, hf, hts, hl]
        | none => simp [waitForTask, hf, hts, hl]

/-- C7 witness: exit code `"0"` present at call time with a 5-second
timeout: the fast path returns `DONE 0` without registering a waiter. -/
theorem c7_wait_no_false_timeout_witness :
    waitForTask (some 5) (some "0") RaceOut.timerFirst none
      = some ({ state := "DONE", code := some 0 }, false) :=
  (c7_wait_no_false_timeout 5 (some "0") none RaceOut.timerFirst (by decide)).1
    0 (by decide)

/-- C10: `listObjects` treats `maxFiles` of `null`/`undefined` (`none`)
or `0` as no cap — every object key passing the `!key` guard and the
include/exclude filters is yielded, across all pages — and for
`maxFiles = m ≥ 1` it yields exactly the first `m` passing keys, even
stopping in the middle of a page. -/
theorem c10_maxfiles_cap (bucket : String) (mat : String → String → Bool)
    (incl excl : List String) (recursive : Bool) (pages : List ObjPage) :
    objKeys (listObjects bucket mat incl excl recursive none pages)
      = allFiltered mat incl excl pages
    ∧ objKeys (listObjects bucket mat incl excl recursive (some 0) pages)
      = allFiltered mat incl excl pages
    ∧ (∀ m : Nat, 1 ≤ m →
        objKeys (listObjects bucket mat incl excl recursive (some (m : Int)) pages)
          = (allFiltered mat incl excl pages).take m) := by
  refine ⟨?_, ?_, ?_⟩
  · exact listGo_nocap bucket mat incl excl recursive none capHit_none pages 0
  · exact listGo_nocap bucket mat incl excl recursive (some 0) capHit_zero pages 0
  · intro m hm
    have hcap := listGo_cap bucket mat incl excl recursive m hm pages 0 (by omega)
    simpa [listObjects] using hcap

/-- C10 witness: cap 2 on a single 3-key page stops mid-page after
exactly 2 keys. -/
theorem c10_maxfiles_cap_witness :
    objKeys (listObjects "b" (fun _ _ => true) [] [] true (some (2 : Int))
        [⟨["k1", "k2", "k3"], none⟩])
      = (allFiltered (fun _ _ => true) [] [] [⟨["k1", "k2", "k3"], none⟩]).take 2 :=
  (c10_maxfiles_cap "b" (fun _ _ => true) [] [] true
    [⟨["k1", "k2", "k3"], none⟩]).2.2 2 (by decide)

lemma normMaxPerTask_pos (m : Option Int) : 1 ≤ normMaxPerTask m := by
  cases m with
  | none => simp [normMaxPerTask]
  | some v =>
    simp only [normMaxPerTask]
    by_cases hv : 0 < v
    · rw [if_pos hv]
      omega
    · rw [if_neg hv]

/-- Chunk-shaped properties of the object-grouping packing loop, for
any effective pack size `k ≥ 1`. -/
lemma planObjectGo_props (k : Nat) (hk : 1 ≤ k) (args : List JSArg)
    (incl excl : List String) (items : List S3Item) :
    (planObjectGo k args incl excl [] items).length
      = ((objKeys items).length + k - 1) / k
    ∧ ((planObjectGo k args incl excl [] items).map
        (fun p => match p.source with | PlanSource.keys ks => ks | _ => [])).flatten
      = objKeys items
    ∧ (∀ p ∈ (planObjectGo k args incl excl [] items).dropLast,
        p.inputs.length = k)
    ∧ (∀ p, (planObjectGo k args incl excl [] items).getLast? = some p →
        p.inputs.length
          = if k ∣ (objKeys items).length then k
            else (objKeys items).length % k) := by
  have hpe := planObjectGo_eq_chunks k hk args incl excl items []
    (by simp only [List.length_nil]; omega)
  rw [List.nil_append] at hpe
  refine ⟨?_, ?_, ?_, ?_⟩
  · rw [hpe, List.length_map, chunksK_length k hk, objEntries_length]
  · rw [hpe, List.map_map]
    rw [show ((fun p => match p.source with | PlanSource.keys ks => ks | _ => ([] : List String))
          ∘ (fun c => packToPlan c args incl excl))
        = fun c : List PackEntry => c.map (fun e => e.key) from rfl]
    rw [show (fun c : List PackEntry => c.map (fun e => e.key))
        = List.map (fun e : PackEntry => e.key) from rfl]
    rw [← List.map_flatten, chunksK_flatten k hk, objEntries_key_map]
  · intro p hp
    rw [hpe, ← List.map_dropLast] at hp
    rcases List.mem_map.mp hp with ⟨c, hc, hpc⟩
    subst hpc
    show (c.map (fun e => (e.bucket, e.key))).length = k
    rw [List.length_map]
    exact (chunksK_sizes k hk _).1 c hc
  · intro p hp
    rw [hpe, List.getLast?_map] at hp
    rcases Option.map_eq_some'.mp hp with ⟨c, hc, hpc⟩
    subst hpc
    show (c.map (fun e => (e.bucket, e.key))).length = _
    rw [List.length_map, ← objEntries_length]
    exact (chunksK_sizes k hk _).2 c hc

/-- C8: with object grouping and effective `maxPerTask` `k` (the
planner normalizes any absent or non-positive value to 1), the planner
yields `⌈n/k⌉` plan items over the `n` objects the lister passed
through, in listing order (the concatenation of the items' source keys
is exactly the listed keys); every item except possibly the last holds
exactly `k` inputs, and the last holds `n mod k` inputs when `k` does
not divide `n` (`k` when it does). -/
theorem c8_object_grouping_packs (maxPerTask : Option Int) (args : List JSArg)
    (incl excl : List String) (items : List S3Item) :
    (planObject maxPerTask args incl excl items).length
      = ((objKeys items).length + normMaxPerTask maxPerTask - 1) / normMaxPerTask maxPerTask
    ∧ ((planObject maxPerTask args incl excl items).map
        (fun p => match p.source with | PlanSource.keys ks => ks | _ => [])).flatten
      = objKeys items
    ∧ (∀ p ∈ (planObject maxPerTask args incl excl items).dropLast,
        p.inputs.length = normMaxPerTask maxPerTask)
    ∧ (∀ p, (planObject maxPerTask args incl excl items).getLast? = some p →
        p.inputs.length
          = if normMaxPerTask maxPerTask ∣ (objKeys items).length
            then normMaxPerTask maxPerTask
            else (objKeys items).length % normMaxPerTask maxPerTask) :=
  planObjectGo_props (normMaxPerTask maxPerTask) (normMaxPerTask_pos maxPerTask)
    args incl excl items

/-- Discriminator: is the operation an `sAdd`? -/
def isSAdd : ROp → Bool
  | ROp.sAdd _ _ => true
  | _ => false

/-- Discriminator: is the operation an `sRem`? -/
def isSRem : ROp → Bool
  | ROp.sRem _ _ => true
  | _ => false

/-- A two-object and a three-object plan (object grouping, pack size 1). -/
def planK1 : PlanItemU :=
  { inputs := [InRef.remote "b" "k1"], localInputs := ["k1"],
    args := [], source := PlanSource.keys ["k1"] }

def planK2 : PlanItemU :=
  { inputs := [InRef.remote "b" "k2"], localInputs := ["k2"],
    args := [], source := PlanSource.keys ["k2"] }

def planK3 : PlanItemU :=
  { inputs := [InRef.remote "b" "k3"], localInputs := ["k3"],
    args := [], source := PlanSource.keys ["k3"] }

/-- Distinct `(millis, hex)` draws for the first batch items. -/
def mintN : Nat → String × String
  | 0 => ("100", "aa")
  | 1 => ("101", "bb")
  | 2 => ("102", "cc")
  | _ + 3 => ("999", "zz")

/-- C1: on a successful `createSingle` and on every error-free
`createBatch` entry, the descriptor is at `<taskId>_msg` and the queue
received exactly one publish of the taskId — but the taskId is NOT a
member of `work:<workId>:tasks`, because neither function ever issues
an `sAdd` (contradicting the claim, the README and `watchWork`'s
reliance on that set). -/
theorem c1_no_workset_membership :
    (∃ workId taskId ops,
      createSingle (some "w1") spec1 true "1700" "ab" "1701" "cd"
        = Except.ok (workId, taskId, ops)
      ∧ (applyOps emptyStore ops).lists (taskId ++ "_msg") ≠ []
      ∧ publishCount ops "q1" taskId = 1
      ∧ taskId ∉ (applyOps emptyStore ops).sets ("work:" ++ workId ++ ":tasks")
      ∧ ops.all (fun op => !(isSAdd op)) = true)
    ∧ (∃ workId ops recs threw rec0 rec1,
      createBatch (some "w1") spec1 [planK1, planK2] (fun _ => true) false true
          "1700" "ab" mintN
        = Except.ok (workId, ops, recs, threw)
      ∧ recs = [rec0, rec1]
      ∧ ops.all (fun op => !(isSAdd op)) = true
      ∧ rec0.hasError = false
      ∧ (applyOps emptyStore ops).lists (rec0.taskId ++ "_msg") ≠ []
      ∧ publishCount ops "q1" rec0.taskId = 1
      ∧ rec0.taskId ∉ (applyOps emptyStore ops).sets ("work:" ++ workId ++ ":tasks")
      ∧ rec1.hasError = false
      ∧ (applyOps emptyStore ops).lists (rec1.taskId ++ "_msg") ≠ []
      ∧ publishCount ops "q1" rec1.taskId = 1
      ∧ rec1.taskId ∉ (applyOps emptyStore ops).sets ("work:" ++ workId ++ ":tasks")) := by
  constructor
  · refine ⟨"w1", "work:w1:task:1701-cd", _, rfl, ?_, ?_, ?_, ?_⟩
    · decide
    · decide
    · decide
    · decide
  · refine ⟨"w1", _, _, _, _, _, rfl, rfl, ?_, ?_, ?_, ?_, ?_, ?_, ?_, ?_, ?_⟩
    · decide
    · decide
    · decide
    · decide
    · decide
    · decide
    · decide
    · decide
    · decide

/-- C2: in a three-item batch whose second `publishBurst` throws, the
error entry's rollback attempts ONLY the deletion of the descriptor key
(`del <taskId>_msg`, wrapped so its own failure is swallowed); no
`sRem` of the work-set membership is ever attempted (none exists in the
code), contradicting the claim that both rollback writes are attempted. -/
theorem c2_rollback_missing_srem :
    ∃ workId ops recs threw,
      createBatch (some "w1") spec1 [planK1, planK2, planK3] (fun i => !(i == 1))
          false true "1700" "ab" mintN
        = Except.ok (workId, ops, recs, threw)
      ∧ (∃ rec1, recs[1]? = some rec1 ∧ rec1.hasError = true
          ∧ ROp.del (rec1.taskId ++ "_msg") ∈ ops
          ∧ (applyOps emptyStore ops).lists (rec1.taskId ++ "_msg") = []
          ∧ rec1.taskId ∉ (applyOps emptyStore ops).sets ("work:" ++ workId ++ ":tasks"))
      ∧ ops.all (fun op => !(isSRem op)) = true
      ∧ ops.all (fun op => !(isSAdd op)) = true := by
  refine ⟨"w1", _, _, _, rfl, ⟨_, rfl, ?_, ?_, ?_, ?_⟩, ?_, ?_⟩
  · decide
  · decide
  · decide
  · decide
  · decide
  · decide

/-- A store whose root listing is truncated into two pages of child
prefixes (`p1/` on page 0, `p2/` on page 1). -/
def store6 : String → List (List String) := fun p =>
  if p = "" then [["p1/"], ["p2/"]] else []

/-- C6: `listPrefixesAtDepth` re-issues each level request WITHOUT the
continuation token it just read, so on a truncated level listing the
inner loop never advances past page 0 and never terminates (no fuel
suffices), instead of collecting the children of every page; the
spec-modelled BFS (which does thread the token) returns both children. -/
theorem c6_level_pagination_lost :
    (∀ fuel, codeListPfxsAtDepth store6 "" 1 fuel = none)
    ∧ specListPfxsAtDepth store6 "" 1 = ["p1/", "p2/"] := by
  constructor
  · intro fuel
    have hkids : ∀ fuel acc, codeFetchKids [["p1/"], ["p2/"]] acc fuel = none := by
      intro fuel
      induction fuel with
      | zero => intro acc; rfl
      | succ f ih =>
        intro acc
        rw [show codeFetchKids [["p1/"], ["p2/"]] acc (f + 1)
              = codeFetchKids [["p1/"], ["p2/"]] (acc ++ ["p1/"]) f from rfl]
        exact ih _
    simp [codeListPfxsAtDepth, codeDepthGo, codeLevel, store6, hkids fuel]
  · decide

/-- C8 witness: 3 objects with `maxPerTask = 2` give 2 plan items, the
last holding `3 mod 2 = 1` input. -/
theorem c8_object_grouping_packs_witness :
    (planObject (some 2) [] [] []
        [S3Item.obj "b" "k1", S3Item.obj "b" "k2", S3Item.obj "b" "k3"]).length
      = ((objKeys [S3Item.obj "b" "k1", S3Item.obj "b" "k2", S3Item.obj "b" "k3"]).length
          + normMaxPerTask (some 2) - 1) / normMaxPerTask (some 2)
    ∧ (packToPlan [⟨"b", "k3", "k3"⟩] [] [] []).inputs.length
      = if normMaxPerTask (some 2)
            ∣ (objKeys [S3Item.obj "b" "k1", S3Item.obj "b" "k2", S3Item.obj "b" "k3"]).length
        then normMaxPerTask (some 2)
        else (objKeys [S3Item.obj "b" "k1", S3Item.obj "b" "k2", S3Item.obj "b" "k3"]).length
          % normMaxPerTask (some 2) :=
  ⟨(c8_object_grouping_packs (some 2) [] [] []
      [S3Item.obj "b" "k1", S3Item.obj "b" "k2", S3Item.obj "b" "k3"]).1,
   (c8_object_grouping_packs (some 2) [] [] []
      [S3Item.obj "b" "k1", S3Item.obj "b" "k2", S3Item.obj "b" "k3"]).2.2.2
     (packToPlan [⟨"b", "k3", "k3"⟩] [] [] []) (by decide)⟩

end Wpok
